import Mathlib

/-!
Verification development for the range-addressed text editing primitives of the
repository (src/utils/tools.ts): `sliceTextByRange` and `replaceTextByRange`.

JS strings are modelled as lists of code units (`List Char`); JS `String.prototype.slice`
and `Array.prototype.slice` with nonnegative arguments clamp out-of-bounds indices, which
is modelled with `List.drop`/`List.take`; `String.prototype.split` is modelled by `jsSplit`;
the source's `lines[i]!` pattern (a TypeScript non-null assertion) throws a runtime
`TypeError` when `i` is out of bounds, which is modelled by returning `Except.error`.
-/

/-- A JS string value, modelled as its list of code units. -/
abbrev Str := List Char

/-- An LSP-style zero-based (line, character) coordinate pair, as in the
`range` parameter of the source functions. -/
structure Position where
  line : Nat
  character : Nat

/-- A coordinate range of a text buffer: a pair of positions. -/
structure Range where
  start : Position
  «end» : Position

/-- A JS runtime error: the source indexes `lines[i]!` and calls `.slice` on the
result, which throws a TypeError at runtime when `i` is out of bounds. -/
inductive JsError where
  | typeError

/-- JS `.slice(a)` (String or Array) with one nonnegative argument: drop the
first `a` elements, clamping when `a` exceeds the length. -/
def jsSliceFrom (l : List α) (a : Nat) : List α := l.drop a

/-- JS `.slice(a, b)` (String or Array) with two nonnegative arguments: the
elements from index `a` (inclusive) to `b` (exclusive), clamping out-of-bounds
indices and returning the empty list when `a ≥ b`. -/
def jsSlice (l : List α) (a b : Nat) : List α := (l.drop a).take (b - a)

/-- Fuel-driven worker for `jsSplit`. The fuel is an upper bound on the length
of the list being split, so the fuel-exhausted branch is never reached when
called through `jsSplit`. -/
def jsSplitGo (sep : Str) : Nat → Str → List Str
  | _, [] => [[]]
  | 0, s => [s]
  | fuel+1, c :: rest =>
    if sep.isPrefixOf (c :: rest) then
      [] :: jsSplitGo sep fuel ((c :: rest).drop sep.length)
    else
      match jsSplitGo sep fuel rest with
      | [] => [[c]]
      | h :: t => (c :: h) :: t

/-- JS `String.prototype.split` with a string separator. With a nonempty
separator the string is cut at each non-overlapping occurrence, scanning left
to right (so `"".split(sep) = [""]`); with the empty separator JS splits the
string into its individual code units (so `"".split("") = []`). -/
def jsSplit (sep s : Str) : List Str :=
  if sep = [] then s.map (fun c => [c]) else jsSplitGo sep s.length s

/-- Embedding of `sliceTextByRange` (src/utils/tools.ts). The source computes
`lines = text.split(eol)`, then `startLine = lines[start.line]!.slice(start.character)`;
if `start.line === end.line` it returns `startLine` (as a one-element array when
`returnRows`), otherwise it computes `endLine = lines[end.line]!.slice(0, end.character)`
and returns `[startLine, ...lines.slice(start.line + 1, end.line), endLine]`,
joined with `eol` unless `returnRows`. The two return shapes (`string[]` vs
`string`) are modelled as a sum type. -/
def sliceTextByRange (text : Str) (range : Range) (eol : Str := "\n".data)
    (returnRows : Bool := false) : Except JsError (Sum (List Str) Str) :=
  let lines := jsSplit eol text
  match lines[range.start.line]? with
  | none => .error .typeError
  | some sl =>
    let startLine := jsSliceFrom sl range.start.character
    if range.start.line = range.«end».line then
      .ok (if returnRows then .inl [startLine] else .inr startLine)
    else
      match lines[range.«end».line]? with
      | none => .error .typeError
      | some el =>
        let endLine := jsSlice el 0 range.«end».character
        if returnRows then
          .ok (.inl (startLine :: jsSlice lines (range.start.line + 1) range.«end».line ++ [endLine]))
        else
          .ok (.inr (List.intercalate eol
            (startLine :: jsSlice lines (range.start.line + 1) range.«end».line ++ [endLine])))

/-- Embedding of `replaceTextByRange` (src/utils/tools.ts). The source computes
`lines = text.split(eol)` and `startLine = lines[start.line]!`; if
`start.line === end.line` it returns
`[...lines.slice(0, start.line), startLine.slice(0, start.character) + newText + startLine.slice(end.character), ...lines.slice(end.line + 1)].join(eol)`;
otherwise it computes `endLine = lines[end.line]!` and returns
`[...lines.slice(0, start.line), startLine.slice(0, start.character) + newText, ...lines.slice(start.line + 1, end.line), endLine.slice(end.character)].join(eol)`. -/
def replaceTextByRange (text : Str) (range : Range) (newText : Str)
    (eol : Str := "\n".data) : Except JsError Str :=
  let lines := jsSplit eol text
  match lines[range.start.line]? with
  | none => .error .typeError
  | some startLine =>
    if range.start.line = range.«end».line then
      .ok (List.intercalate eol
        (jsSlice lines 0 range.start.line ++
         [jsSlice startLine 0 range.start.character ++ newText ++
          jsSliceFrom startLine range.«end».character] ++
         jsSliceFrom lines (range.«end».line + 1)))
    else
      match lines[range.«end».line]? with
      | none => .error .typeError
      | some endLine =>
        .ok (List.intercalate eol
          (jsSlice lines 0 range.start.line ++
           [jsSlice startLine 0 range.start.character ++ newText] ++
           jsSlice lines (range.start.line + 1) range.«end».line ++
           [jsSliceFrom endLine range.«end».character]))

/-- The split worker never returns the empty list of rows. -/
theorem jsSplitGo_ne_nil (sep : Str) : ∀ (fuel : Nat) (s : Str), jsSplitGo sep fuel s ≠ [] := by
  intro fuel s
  match fuel, s with
  | fuel, [] => cases fuel <;> simp [jsSplitGo]
  | 0, c :: rest => simp [jsSplitGo]
  | fuel+1, c :: rest =>
    simp only [jsSplitGo]
    split
    · simp
    · split <;> simp

/-- Unfolding `List.intercalate` on a list with at least two chunks. -/
theorem intercalate_cons_cons (sep a b : Str) (t : List Str) :
    List.intercalate sep (a :: b :: t) = a ++ sep ++ List.intercalate sep (b :: t) := by
  simp [List.intercalate, List.intersperse]

/-- Unfolding `List.intercalate` on a single chunk. -/
theorem intercalate_single (sep a : Str) : List.intercalate sep [a] = a := by
  simp [List.intercalate]

/-- Interleaving a separator before a nonempty chunk list. -/
theorem intercalate_nil_cons (sep : Str) (L : List Str) (hL : L ≠ []) :
    List.intercalate sep ([] :: L) = sep ++ List.intercalate sep L := by
  obtain ⟨h, t, rfl⟩ := List.exists_cons_of_ne_nil hL
  rw [intercalate_cons_cons]
  simp

/-- Pulling a leading code unit out of the first chunk of an intercalation. -/
theorem intercalate_cons_head (sep : Str) (c : Char) (h : Str) (t : List Str) :
    List.intercalate sep ((c :: h) :: t) = c :: List.intercalate sep (h :: t) := by
  cases t with
  | nil => rw [intercalate_single, intercalate_single]
  | cons b t => rw [intercalate_cons_cons, intercalate_cons_cons]; simp

/-- Joining the chunks produced by the split worker with the separator
reconstructs the original string, for a nonempty separator and enough fuel. -/
theorem intercalate_jsSplitGo (sep : Str) (hsep : sep ≠ []) :
    ∀ (fuel : Nat) (s : Str), s.length ≤ fuel →
      List.intercalate sep (jsSplitGo sep fuel s) = s := by
  intro fuel
  induction fuel with
  | zero =>
    intro s hs
    have hnil : s = [] := List.length_eq_zero.mp (Nat.le_zero.mp hs)
    subst hnil
    simp [jsSplitGo, intercalate_single]
  | succ fuel ih =>
    intro s hs
    cases s with
    | nil => simp [jsSplitGo, intercalate_single]
    | cons c rest =>
      simp only [jsSplitGo]
      by_cases hp : sep.isPrefixOf (c :: rest)
      · rw [if_pos hp]
        have hpre : sep <+: (c :: rest) := List.isPrefixOf_iff_prefix.mp hp
        have hlen : ((c :: rest).drop sep.length).length ≤ fuel := by
          have h1 : 0 < sep.length := List.length_pos.mpr hsep
          have h2 : (c :: rest).length ≤ fuel + 1 := hs
          rw [List.length_drop]
          omega
        rw [intercalate_nil_cons sep _ (jsSplitGo_ne_nil sep fuel _), ih _ hlen]
        exact List.prefix_iff_eq_append.mp hpre
      · rw [if_neg hp]
        obtain ⟨h1, t1, hsplit⟩ := List.exists_cons_of_ne_nil (jsSplitGo_ne_nil sep fuel rest)
        rw [hsplit]
        have hrest : rest.length ≤ fuel := by
          have : (c :: rest).length ≤ fuel + 1 := hs
          simpa [List.length_cons] using this
        calc List.intercalate sep ((c :: h1) :: t1)
            = c :: List.intercalate sep (h1 :: t1) := intercalate_cons_head sep c h1 t1
          _ = c :: List.intercalate sep (jsSplitGo sep fuel rest) := by rw [hsplit]
          _ = c :: rest := by rw [ih rest hrest]

/-- Round trip of the JS split: joining `text.split(eol)` with `eol` gives back
`text`, for any nonempty terminator. -/
theorem intercalate_jsSplit (sep : Str) (hsep : sep ≠ []) (s : Str) :
    List.intercalate sep (jsSplit sep s) = s := by
  simp only [jsSplit, if_neg hsep]
  exact intercalate_jsSplitGo sep hsep s.length s le_rfl

/-- Splitting the empty buffer on a nonempty terminator yields one empty row. -/
theorem jsSplit_nil (sep : Str) (hsep : sep ≠ []) : jsSplit sep [] = [[]] := by
  simp only [jsSplit, if_neg hsep]
  rfl

/-- Evaluation of `replaceTextByRange` in its same-line branch: for an in-bounds
start line, the result joins the rows before the start line, the rebuilt row
`prefix ++ newText ++ suffix`, and the rows after the end line. -/
theorem replaceTextByRange_same_line_eval
    (text eol newText : Str) (range : Range)
    (hEq : range.start.line = range.«end».line)
    (hl : range.start.line < (jsSplit eol text).length) :
    replaceTextByRange text range newText eol =
      .ok (List.intercalate eol
        ((jsSplit eol text).take range.start.line ++
         (((jsSplit eol text).getD range.start.line []).take range.start.character ++ newText ++
          ((jsSplit eol text).getD range.start.line []).drop range.«end».character) ::
         (jsSplit eol text).drop (range.«end».line + 1))) := by
  simp only [replaceTextByRange]
  split
  · next heq => exact absurd (List.getElem?_eq_none_iff.mp heq) (Nat.not_le.mpr hl)
  · next sl heq =>
    have h2 := List.getElem?_eq_getElem hl
    rw [heq] at h2
    have hsl : sl = (jsSplit eol text).getD range.start.line [] := by
      rw [List.getD_eq_getElem _ _ hl]
      exact Option.some.inj h2
    rw [if_pos hEq, hsl]
    simp [jsSlice, jsSliceFrom]

/-- Evaluation of `sliceTextByRange` in its same-line branch: for an in-bounds
start line, the result is the start row from `start.character` on, in the shape
selected by `returnRows`. -/
theorem sliceTextByRange_same_line_eval
    (text eol : Str) (range : Range) (returnRows : Bool)
    (hEq : range.start.line = range.«end».line)
    (hl : range.start.line < (jsSplit eol text).length) :
    sliceTextByRange text range eol returnRows =
      .ok (if returnRows then
        .inl [((jsSplit eol text).getD range.start.line []).drop range.start.character]
      else
        .inr (((jsSplit eol text).getD range.start.line []).drop range.start.character)) := by
  simp only [sliceTextByRange]
  split
  · next heq => exact absurd (List.getElem?_eq_none_iff.mp heq) (Nat.not_le.mpr hl)
  · next sl heq =>
    have h2 := List.getElem?_eq_getElem hl
    rw [heq] at h2
    have hsl : sl = (jsSplit eol text).getD range.start.line [] := by
      rw [List.getD_eq_getElem _ _ hl]
      exact Option.some.inj h2
    rw [if_pos hEq, hsl]
    simp [jsSliceFrom]

/-- Evaluation of `sliceTextByRange` in its multi-line branch: for in-bounds
start and end lines on different rows, the result is the ordered sequence of
the start row suffix, the intervening rows, and the end row prefix, in the
shape selected by `returnRows`. -/
theorem sliceTextByRange_multi_eval
    (text eol : Str) (range : Range) (returnRows : Bool)
    (hNe : range.start.line ≠ range.«end».line)
    (hls : range.start.line < (jsSplit eol text).length)
    (hle : range.«end».line < (jsSplit eol text).length) :
    sliceTextByRange text range eol returnRows =
      .ok (if returnRows then
        .inl (((jsSplit eol text).getD range.start.line []).drop range.start.character ::
          ((jsSplit eol text).drop (range.start.line + 1)).take
            (range.«end».line - (range.start.line + 1)) ++
          [((jsSplit eol text).getD range.«end».line []).take range.«end».character])
      else
        .inr (List.intercalate eol
          (((jsSplit eol text).getD range.start.line []).drop range.start.character ::
           ((jsSplit eol text).drop (range.start.line + 1)).take
             (range.«end».line - (range.start.line + 1)) ++
           [((jsSplit eol text).getD range.«end».line []).take range.«end».character]))) := by
  simp only [sliceTextByRange]
  split
  · next heq => exact absurd (List.getElem?_eq_none_iff.mp heq) (Nat.not_le.mpr hls)
  · next sl heq =>
    have h2 := List.getElem?_eq_getElem hls
    rw [heq] at h2
    have hsl : sl = (jsSplit eol text).getD range.start.line [] := by
      rw [List.getD_eq_getElem _ _ hls]
      exact Option.some.inj h2
    rw [if_neg hNe]
    split
    · next heq2 => exact absurd (List.getElem?_eq_none_iff.mp heq2) (Nat.not_le.mpr hle)
    · next el heq2 =>
      have h3 := List.getElem?_eq_getElem hle
      rw [heq2] at h3
      have hel : el = (jsSplit eol text).getD range.«end».line [] := by
        rw [List.getD_eq_getElem _ _ hle]
        exact Option.some.inj h3
      rw [hsl, hel]
      cases returnRows <;> simp [jsSlice, jsSliceFrom]

/-- Claim C1: the claim states that for a same-line range the slice is the
substring of that row between `start.character` and `end.character` (so
`sliceTextByRange "hello world" {(0,0),(0,5)} "\n"` would be `"hello"`). The
code instead ignores `end.character` in the same-line branch and returns the
start row from `start.character` to the end of the row: on the spec's own
scenario it returns `"hello world"`, not `"hello"`. -/
theorem sliceTextByRange_single_line_ignores_end_character :
    sliceTextByRange "hello world".data ⟨⟨0, 0⟩, ⟨0, 5⟩⟩ "\n".data false =
      .ok (.inr "hello world".data) ∧
    "hello world".data ≠ "hello".data :=
  ⟨rfl, by decide⟩

/-- Claim C2: the claim states that a multi-line replace drops the rows strictly
between `start.line` and `end.line`, appends the end-row suffix directly after
`newText` with no terminator, and keeps the rows after `end.line`; on the spec's
deletion scenario the result would be `"ai"`. The code instead keeps the
intervening rows, joins the end-row suffix as a separate row (inserting a
terminator), and drops every row after `end.line`: the deletion scenario yields
`"a\ndef\ni"`, and a replace inside `"abc\ndef\nghi\njkl"` silently loses the
trailing rows `"ghi"` and `"jkl"`. -/
theorem replaceTextByRange_multi_line_divergence :
    replaceTextByRange "abc\ndef\nghi".data ⟨⟨0, 1⟩, ⟨2, 2⟩⟩ [] "\n".data =
      .ok "a\ndef\ni".data ∧
    "a\ndef\ni".data ≠ "ai".data ∧
    replaceTextByRange "abc\ndef\nghi\njkl".data ⟨⟨0, 1⟩, ⟨1, 1⟩⟩ "X".data "\n".data =
      .ok "aX\nef".data :=
  ⟨rfl, by decide, rfl⟩

/-- Claim C3: the claim states that any out-of-bounds line or character index
makes both operations fail with an `OutOfRange` error rather than silently
clamping. The code has no `OutOfRange` error: an out-of-bounds character index
is silently clamped by JS `String.prototype.slice` (slicing `"abc"` at
characters 10..20 succeeds with `""`, and replacing there succeeds with
`"abcX"`), while an out-of-bounds line index throws a generic `TypeError` from
indexing `undefined` (the `"short"` scenario). -/
theorem out_of_range_clamped_not_rejected :
    sliceTextByRange "abc".data ⟨⟨0, 10⟩, ⟨0, 20⟩⟩ "\n".data false = .ok (.inr []) ∧
    replaceTextByRange "abc".data ⟨⟨0, 10⟩, ⟨0, 20⟩⟩ "X".data "\n".data = .ok "abcX".data ∧
    sliceTextByRange "short".data ⟨⟨5, 0⟩, ⟨5, 1⟩⟩ "\n".data false = .error .typeError :=
  ⟨rfl, rfl, rfl⟩

/-- Claim C4: the claim states that a range whose start is lexicographically
greater than its end is rejected with an `InvalidRange` error by both
operations before any slicing work. The code performs no such validation: with
`start = (2,0)`, `end = (1,0)` on `"a\nb\nc"`, `sliceTextByRange` succeeds and
returns `"c\n"`, and `replaceTextByRange` succeeds and returns `"a\nb\nX\nb"`. -/
theorem invalid_range_not_rejected :
    sliceTextByRange "a\nb\nc".data ⟨⟨2, 0⟩, ⟨1, 0⟩⟩ "\n".data false = .ok (.inr "c\n".data) ∧
    replaceTextByRange "a\nb\nc".data ⟨⟨2, 0⟩, ⟨1, 0⟩⟩ "X".data "\n".data =
      .ok "a\nb\nX\nb".data :=
  ⟨rfl, rfl⟩

/-- Claim C5: the claim states that replacing a valid non-degenerate range with
its own slice is the identity. It fails on the code: for `T = "hello world"`
and `R = {(0,0),(0,5)}`, the slice is `"hello world"` (the single-line slice
bug) and replacing the range with it yields `"hello world world" ≠ T`. -/
theorem slice_replace_round_trip_fails :
    sliceTextByRange "hello world".data ⟨⟨0, 0⟩, ⟨0, 5⟩⟩ "\n".data false =
      .ok (.inr "hello world".data) ∧
    replaceTextByRange "hello world".data ⟨⟨0, 0⟩, ⟨0, 5⟩⟩ "hello world".data "\n".data =
      .ok "hello world world".data ∧
    "hello world world".data ≠ "hello world".data :=
  ⟨rfl, rfl, by decide⟩

/-- Claim C6: for every buffer, nonempty terminator, and degenerate range with
`start = end` at a valid in-bounds position, replacing the range with the empty
string returns the buffer unchanged. -/
theorem replaceTextByRange_degenerate_empty_identity
    (text eol : Str) (range : Range)
    (heol : eol ≠ [])
    (hdeg : range.start = range.«end»)
    (hline : range.start.line < (jsSplit eol text).length)
    (hchar : range.start.character ≤ ((jsSplit eol text).getD range.start.line []).length) :
    replaceTextByRange text range [] eol = .ok text := by
  have hEq : range.start.line = range.«end».line := by rw [hdeg]
  have hcEq : range.start.character = range.«end».character := by rw [hdeg]
  rw [replaceTextByRange_same_line_eval text eol [] range hEq hline, ← hcEq, ← hEq]
  have hmid : ((jsSplit eol text).getD range.start.line []).take range.start.character ++
      ([] : Str) ++
      ((jsSplit eol text).getD range.start.line []).drop range.start.character =
      (jsSplit eol text).getD range.start.line [] := by
    rw [List.append_nil, List.take_append_drop]
  rw [hmid]
  have hrows : (jsSplit eol text).take range.start.line ++
      ((jsSplit eol text).getD range.start.line []) ::
        (jsSplit eol text).drop (range.start.line + 1) =
      jsSplit eol text := by
    rw [List.getD_eq_getElem _ _ hline, ← List.drop_eq_getElem_cons hline,
      List.take_append_drop]
  rw [hrows, intercalate_jsSplit eol heol text]

/-- Witness for claim C6 at a concrete input: deleting the degenerate range
`{(1,1),(1,1)}` of `"ab\ncd"` returns the buffer unchanged. -/
theorem replaceTextByRange_degenerate_empty_identity_witness :
    replaceTextByRange "ab\ncd".data ⟨⟨1, 1⟩, ⟨1, 1⟩⟩ [] "\n".data = .ok "ab\ncd".data :=
  replaceTextByRange_degenerate_empty_identity "ab\ncd".data "\n".data ⟨⟨1, 1⟩, ⟨1, 1⟩⟩
    (by decide) rfl (by decide) (by decide)

/-- Claim C7: the claim states that replacing a span containing `m` terminator
occurrences with a `newText` containing `k` occurrences changes the row count
by exactly `k - m`. It fails on the code: replacing the span `{(0,0),(1,0)}` of
`"a\nb\nc\nd"` (its slice `"a\n"` contains `m = 1` terminator) with the empty
string (`k = 0`) yields `"\nb"` with 2 rows, while the original has 4 rows and
the claim demands `4 + 0 - 1 = 3` rows (the multi-line branch drops the rows
after `end.line`). -/
theorem row_count_invariant_fails :
    replaceTextByRange "a\nb\nc\nd".data ⟨⟨0, 0⟩, ⟨1, 0⟩⟩ [] "\n".data = .ok "\nb".data ∧
    sliceTextByRange "a\nb\nc\nd".data ⟨⟨0, 0⟩, ⟨1, 0⟩⟩ "\n".data false = .ok (.inr "a\n".data) ∧
    (jsSplit "\n".data "a\n".data).length - 1 = 1 ∧
    (jsSplit "\n".data ([] : Str)).length - 1 = 0 ∧
    (jsSplit "\n".data "a\nb\nc\nd".data).length = 4 ∧
    (jsSplit "\n".data "\nb".data).length = 2 ∧
    (2 : Nat) ≠ 4 + 0 - 1 :=
  ⟨rfl, rfl, rfl, rfl, rfl, rfl, by decide⟩

/-- Claim C8: for a valid range spanning several lines, `sliceTextByRange`
returns the ordered sequence of the start row from `start.character`, every
intervening row unmodified, and the end row truncated to its first
`end.character` code units, as rows when `returnRows` and joined with the
terminator otherwise. -/
theorem sliceTextByRange_multi_line_spec
    (text eol : Str) (range : Range)
    (heol : eol ≠ [])
    (hlt : range.start.line < range.«end».line)
    (hle : range.«end».line < (jsSplit eol text).length)
    (hsc : range.start.character ≤ ((jsSplit eol text).getD range.start.line []).length)
    (hec : range.«end».character ≤ ((jsSplit eol text).getD range.«end».line []).length) :
    sliceTextByRange text range eol true =
      .ok (.inl (((jsSplit eol text).getD range.start.line []).drop range.start.character ::
        ((jsSplit eol text).drop (range.start.line + 1)).take
          (range.«end».line - (range.start.line + 1)) ++
        [((jsSplit eol text).getD range.«end».line []).take range.«end».character])) ∧
    sliceTextByRange text range eol false =
      .ok (.inr (List.intercalate eol
        (((jsSplit eol text).getD range.start.line []).drop range.start.character ::
         ((jsSplit eol text).drop (range.start.line + 1)).take
           (range.«end».line - (range.start.line + 1)) ++
         [((jsSplit eol text).getD range.«end».line []).take range.«end».character]))) := by
  have hNe : range.start.line ≠ range.«end».line := Nat.ne_of_lt hlt
  have hls : range.start.line < (jsSplit eol text).length := Nat.lt_trans hlt hle
  constructor
  · rw [sliceTextByRange_multi_eval text eol range true hNe hls hle]
    rfl
  · rw [sliceTextByRange_multi_eval text eol range false hNe hls hle]
    rfl

/-- Witness for claim C8 at the spec's multi-line scenario: slicing
`"line1\nline2\nline3"` by `{(0,2),(2,3)}` gives rows `["ne1","line2","lin"]`
and joined `"ne1\nline2\nlin"`. -/
theorem sliceTextByRange_multi_line_spec_witness :
    sliceTextByRange "line1\nline2\nline3".data ⟨⟨0, 2⟩, ⟨2, 3⟩⟩ "\n".data true =
      .ok (.inl ["ne1".data, "line2".data, "lin".data]) ∧
    sliceTextByRange "line1\nline2\nline3".data ⟨⟨0, 2⟩, ⟨2, 3⟩⟩ "\n".data false =
      .ok (.inr "ne1\nline2\nlin".data) := by
  have h := sliceTextByRange_multi_line_spec "line1\nline2\nline3".data "\n".data
    ⟨⟨0, 2⟩, ⟨2, 3⟩⟩ (by decide) (by decide) (by decide) (by decide) (by decide)
  exact ⟨h.1.trans (by rfl), h.2.trans (by rfl)⟩

/-- Claim C9: for a valid same-line range, `replaceTextByRange` rebuilds that
row as the prefix up to `start.character`, then `newText`, then the suffix from
`end.character`, and rejoins all rows with the terminator. -/
theorem replaceTextByRange_single_line_spec
    (text eol newText : Str) (range : Range)
    (heol : eol ≠ [])
    (hEq : range.start.line = range.«end».line)
    (hline : range.start.line < (jsSplit eol text).length)
    (hord : range.start.character ≤ range.«end».character)
    (hchar : range.«end».character ≤ ((jsSplit eol text).getD range.start.line []).length) :
    replaceTextByRange text range newText eol =
      .ok (List.intercalate eol
        ((jsSplit eol text).take range.start.line ++
         (((jsSplit eol text).getD range.start.line []).take range.start.character ++ newText ++
          ((jsSplit eol text).getD range.start.line []).drop range.«end».character) ::
         (jsSplit eol text).drop (range.start.line + 1))) := by
  rw [replaceTextByRange_same_line_eval text eol newText range hEq hline, hEq]

/-- Witness for claim C9 at the spec's single-line scenario: replacing
`{(0,0),(0,5)}` of `"hello world"` with `"goodbye"` gives `"goodbye world"`. -/
theorem replaceTextByRange_single_line_spec_witness :
    replaceTextByRange "hello world".data ⟨⟨0, 0⟩, ⟨0, 5⟩⟩ "goodbye".data "\n".data =
      .ok "goodbye world".data := by
  have h := replaceTextByRange_single_line_spec "hello world".data "\n".data "goodbye".data
    ⟨⟨0, 0⟩, ⟨0, 5⟩⟩ (by decide) rfl (by decide) (by decide) (by decide)
  exact h.trans (by rfl)

/-- Claim C10: the empty buffer splits into one empty row under any nonempty
terminator, so the degenerate range `{(0,0),(0,0)}` is addressable in it:
slicing it returns the empty string (one empty row under `returnRows`), and
replacing it with any `newText` returns `newText` itself. -/
theorem empty_buffer_degenerate_range_spec
    (eol newText : Str) (heol : eol ≠ []) :
    (jsSplit eol []).length = 1 ∧
    sliceTextByRange [] ⟨⟨0, 0⟩, ⟨0, 0⟩⟩ eol false = .ok (.inr []) ∧
    sliceTextByRange [] ⟨⟨0, 0⟩, ⟨0, 0⟩⟩ eol true = .ok (.inl [[]]) ∧
    replaceTextByRange [] ⟨⟨0, 0⟩, ⟨0, 0⟩⟩ newText eol = .ok newText := by
  have hsplit : jsSplit eol [] = [[]] := jsSplit_nil eol heol
  have hl : (0 : Nat) < (jsSplit eol []).length := by rw [hsplit]; exact Nat.zero_lt_one
  refine ⟨by rw [hsplit]; rfl, ?_, ?_, ?_⟩
  · rw [sliceTextByRange_same_line_eval [] eol ⟨⟨0, 0⟩, ⟨0, 0⟩⟩ false rfl hl, hsplit]
    rfl
  · rw [sliceTextByRange_same_line_eval [] eol ⟨⟨0, 0⟩, ⟨0, 0⟩⟩ true rfl hl, hsplit]
    rfl
  · rw [replaceTextByRange_same_line_eval [] eol newText ⟨⟨0, 0⟩, ⟨0, 0⟩⟩ rfl hl, hsplit]
    simp [intercalate_single]

/-- Witness for claim C10 at a concrete terminator and replacement text,
including a `newText` that itself contains the terminator. -/
theorem empty_buffer_degenerate_range_spec_witness :
    (jsSplit "\n".data []).length = 1 ∧
    sliceTextByRange [] ⟨⟨0, 0⟩, ⟨0, 0⟩⟩ "\n".data false = .ok (.inr []) ∧
    sliceTextByRange [] ⟨⟨0, 0⟩, ⟨0, 0⟩⟩ "\n".data true = .ok (.inl [[]]) ∧
    replaceTextByRange [] ⟨⟨0, 0⟩, ⟨0, 0⟩⟩ "x\ny".data "\n".data = .ok "x\ny".data :=
  empty_buffer_degenerate_range_spec "\n".data "x\ny".data (by decide)
